import Mathlib

/-!
Verification of the migration engine of `src/api/src/utils/migrate.js`
(class `MigrationManager`) against its specification.

The JavaScript code is shallowly embedded as follows.

* Script texts are JavaScript strings, modelled as `List Char`; the helpers
  `jsTrim`, `splitOnSemi` and `splitStatements` embed `String.prototype.trim`,
  `String.prototype.split(';')` and the statement-splitting pipeline of
  `runMigration` (migrate.js lines 68-71).
* The database is a `DbState` (the `maes.migrations` ledger plus an abstract
  log of the effects of ordinary committed statements).  A `Conn` carries the
  committed state and an optional open-transaction working state; `applySql`
  gives the semantics of the executor calls the code makes (BEGIN, a script
  statement, the ledger INSERT, COMMIT, ROLLBACK, and the CREATE TABLE issued
  on startup).  The ledger INSERT enforces the `filename UNIQUE` constraint of
  the table created in `createMigrationsTable` (migrate.js lines 18-24).
* External failures (directory listing, file reads, statement execution, the
  ledger queries) are an `Env` of failure oracles; the code's `catch` blocks
  are translated branch by branch.
* `fs.readdir`, `getRows`, `getRow` results are fields of `Env` / `DbState`;
  `Array.prototype.sort()` on filenames is `List.insertionSort (· ≤ ·)`
  (a stable sort into ascending lexicographic order).
-/

namespace Migrate

/-- JavaScript `str.endsWith(t)`: the character sequence of `t` is a suffix of
the character sequence of `s`. -/
def jsEndsWith (s t : String) : Bool := t.data.isSuffixOf s.data

/-- JavaScript string comparison as used by `Array.prototype.sort()` with no
comparator: lexicographic order on the code-unit sequences. -/
def fileLe (a b : String) : Prop := a.data ≤ b.data

instance : DecidableRel fileLe := fun a b => inferInstanceAs (Decidable (a.data ≤ b.data))

instance : IsTotal String fileLe := ⟨fun a b => le_total a.data b.data⟩

instance : IsTrans String fileLe := ⟨fun _ _ _ h h' => le_trans (α := List Char) h h'⟩

/-- JavaScript `String.prototype.trim`: drop leading and trailing whitespace
(modelled on a character list; scripts are ASCII so `Char.isWhitespace`
matches the JS whitespace set on the characters that occur). -/
def jsTrim (s : List Char) : List Char :=
  ((s.dropWhile Char.isWhitespace).reverse.dropWhile Char.isWhitespace).reverse

/-- JavaScript `text.split(';')`: split at every `';'`, keeping empty pieces
(so `"a;;b;"` gives `["a", "", "b", ""]`). -/
def splitOnSemi : List Char → List (List Char)
  | [] => [[]]
  | c :: rest =>
    if c = ';' then [] :: splitOnSemi rest
    else
      match splitOnSemi rest with
      | [] => [[c]]
      | p :: ps => (c :: p) :: ps

/-- Statement splitting of `runMigration` (migrate.js lines 68-71):
`migrationSQL.split(';').map(stmt => stmt.trim()).filter(stmt => stmt.length > 0)`. -/
def splitStatements (text : List Char) : List (List Char) :=
  ((splitOnSemi text).map jsTrim).filter (fun s => s.length > 0)

/-- Database state: the `maes.migrations` ledger (applied filenames in
insertion order) and an abstract log of the committed effects of ordinary
script statements. -/
structure DbState where
  ledger : List String
  effects : List (List Char)
deriving DecidableEq, Repr

/-- A connection as the migration code sees it: the committed database state,
plus the working state of an open transaction when one is active. -/
structure Conn where
  committed : DbState
  txn : Option DbState
deriving DecidableEq, Repr

/-- The state a query reads or writes: the open transaction's working state if
a transaction is active, otherwise the committed state. -/
def Conn.view (c : Conn) : DbState := c.txn.getD c.committed

/-- The executor calls the migration code issues through `query` of
`src/services/compliance/src/services/database.js`. -/
inductive Sql where
  | createTable
  | beginTx
  | stmt (text : List Char)
  | insertLedger (filename : String)
  | commitTx
  | rollbackTx
deriving DecidableEq, Repr

/-- The external world: the `fs.readdir` result (`none` = directory
missing/unreadable), file contents, and failure oracles for the individual
database operations the code performs. -/
structure Env where
  dirListing : Option (List String)
  fileContents : String → List Char
  readFileFails : String → Bool
  stmtFails : List Char → Bool
  insertFails : String → Bool
  ledgerReadFails : Bool
  pointLookupFails : Bool
  createTableFails : Bool

/-- Semantics of one executor call on one connection.  `none` means the query
throws.  The ledger INSERT fails when the oracle says so or when the
`filename UNIQUE` constraint of `maes.migrations` is violated. -/
def applySql (env : Env) (c : Conn) : Sql → Option Conn
  | .createTable => if env.createTableFails then none else some c
  | .beginTx =>
      match c.txn with
      | some _ => some c
      | none => some { c with txn := some c.committed }
  | .commitTx =>
      match c.txn with
      | some s => some { committed := s, txn := none }
      | none => some c
  | .rollbackTx => some { c with txn := none }
  | .stmt t =>
      if env.stmtFails t then none
      else
        match c.txn with
        | some s => some { c with txn := some { s with effects := s.effects ++ [t] } }
        | none => some { c with committed := { c.committed with effects := c.committed.effects ++ [t] } }
  | .insertLedger f =>
      if env.insertFails f || c.view.ledger.contains f then none
      else
        match c.txn with
        | some s => some { c with txn := some { s with ledger := s.ledger ++ [f] } }
        | none => some { c with committed := { c.committed with ledger := c.committed.ledger ++ [f] } }

/-- Result of a run: whether it completed without a propagated error, the
final connection, and the sequence of executor calls made. -/
structure ExecRes where
  ok : Bool
  conn : Conn
  trace : List Sql
deriving DecidableEq, Repr

/-- The statement loop of `runMigration` (migrate.js lines 73-77):
`for (const statement of statements) { if (statement.trim()) { await query(statement); } }`,
stopping at the first statement whose execution throws. -/
def runStmtLoop (env : Env) (c : Conn) : List (List Char) → ExecRes
  | [] => ⟨true, c, []⟩
  | s :: rest =>
    if (jsTrim s).isEmpty then runStmtLoop env c rest
    else
      match applySql env c (.stmt s) with
      | none => ⟨false, c, [.stmt s]⟩
      | some c1 =>
        let r := runStmtLoop env c1 rest
        ⟨r.ok, r.conn, .stmt s :: r.trace⟩

/-- `runMigration(filename)` (migrate.js lines 54-97): read the file, BEGIN,
execute the split statements, INSERT the ledger row, COMMIT; on any error
inside the transaction, ROLLBACK and rethrow. -/
def runMigration (env : Env) (c : Conn) (filename : String) : ExecRes :=
  if env.readFileFails filename then ⟨false, c, []⟩
  else
    let stmts := splitStatements (env.fileContents filename)
    match applySql env c .beginTx with
    | none => ⟨false, c, [.beginTx]⟩
    | some c1 =>
      let r := runStmtLoop env c1 stmts
      if r.ok then
        match applySql env r.conn (.insertLedger filename) with
        | none =>
          let c2 := (applySql env r.conn .rollbackTx).getD r.conn
          ⟨false, c2, .beginTx :: r.trace ++ [.insertLedger filename, .rollbackTx]⟩
        | some c2 =>
          let c3 := (applySql env c2 .commitTx).getD c2
          ⟨true, c3, .beginTx :: r.trace ++ [.insertLedger filename, .commitTx]⟩
      else
        let c2 := (applySql env r.conn .rollbackTx).getD r.conn
        ⟨false, c2, .beginTx :: r.trace ++ [.rollbackTx]⟩

/-- `getAppliedMigrations()` (migrate.js lines 32-40):
`SELECT filename FROM maes.migrations ORDER BY filename`, returning `[]`
if the query throws. -/
def getAppliedMigrations (env : Env) (c : Conn) : List String :=
  if env.ledgerReadFails then []
  else List.insertionSort fileLe c.view.ledger

/-- `getMigrationFiles()` (migrate.js lines 42-52): `fs.readdir`, keep the
`.sql` files, `sort()`; returns `[]` if the directory read throws. -/
def getMigrationFiles (env : Env) : List String :=
  match env.dirListing with
  | none => []
  | some files =>
      List.insertionSort fileLe (files.filter (fun f => jsEndsWith f ".sql"))

/-- The pending set computed by `runPendingMigrations` and `getStatus`
(migrate.js lines 106-108 and 149-151):
`migrationFiles.filter(file => !appliedMigrations.includes(file))`. -/
def pendingOf (env : Env) (c : Conn) : List String :=
  (getMigrationFiles env).filter (fun f => !((getAppliedMigrations env c).contains f))

/-- The loop of `runPendingMigrations` (migrate.js lines 117-119): apply each
pending migration in order, stopping at (and propagating) the first failure. -/
def runLoop (env : Env) (c : Conn) : List String → ExecRes
  | [] => ⟨true, c, []⟩
  | f :: rest =>
    let r := runMigration env c f
    if r.ok then
      let r2 := runLoop env r.conn rest
      ⟨r2.ok, r2.conn, r.trace ++ r2.trace⟩
    else ⟨false, r.conn, r.trace⟩

/-- `runPendingMigrations()` (migrate.js lines 99-127): ensure the ledger
table, read applied and discovered filenames, filter to the pending set,
return early if it is empty, otherwise apply each pending script in order;
any error is propagated (rethrown) to the caller. -/
def runPendingMigrations (env : Env) (c : Conn) : ExecRes :=
  match applySql env c .createTable with
  | none => ⟨false, c, [.createTable]⟩
  | some c0 =>
    let pending := pendingOf env c0
    if pending.isEmpty then ⟨true, c0, [.createTable]⟩
    else
      let r := runLoop env c0 pending
      ⟨r.ok, r.conn, .createTable :: r.trace⟩

/-- `isMigrationApplied(filename)` (migrate.js lines 130-141): point lookup
`SELECT 1 FROM maes.migrations WHERE filename = $1`, `false` when no row is
found and also `false` when the query throws. -/
def isMigrationApplied (env : Env) (c : Conn) (filename : String) : Bool :=
  if env.pointLookupFails then false
  else c.view.ledger.contains filename

/-- The record returned by `getStatus()` (migrate.js lines 153-159). -/
structure Status where
  total : Nat
  applied : Nat
  pending : Nat
  appliedMigrations : List String
  pendingMigrations : List String
deriving DecidableEq, Repr

/-- `getStatus()` (migrate.js lines 144-164): read-compose the two helpers
into a summary.  Its own catch only rethrows errors raised in its body, and
the two helpers swallow their errors, so it always returns a record. -/
def getStatus (env : Env) (c : Conn) : Status :=
  let appliedMigrations := getAppliedMigrations env c
  let migrationFiles := getMigrationFiles env
  let pendingMigrations := migrationFiles.filter (fun f => !(appliedMigrations.contains f))
  ⟨migrationFiles.length, appliedMigrations.length, pendingMigrations.length,
   appliedMigrations, pendingMigrations⟩

/-- Observation: the script statements among the executor calls of a trace,
in execution order. -/
def scriptStmts (tr : List Sql) : List (List Char) :=
  tr.filterMap (fun s => match s with | .stmt t => some t | _ => none)

/-! Concrete environments used to exercise the theorems on explicit inputs. -/

/-- A connection to an empty database. -/
def connEmpty : Conn := ⟨⟨[], []⟩, none⟩

/-- Healthy environment: two discovered scripts, one already applied. -/
def envC1 : Env :=
  { dirListing := some ["002_b.sql", "001_a.sql"]
    fileContents := fun _ => "CREATE TABLE t(x int);".data
    readFileFails := fun _ => false
    stmtFails := fun _ => false
    insertFails := fun _ => false
    ledgerReadFails := false
    pointLookupFails := false
    createTableFails := false }

/-- A connection whose ledger already holds one of the two scripts of `envC1`. -/
def cC1 : Conn := ⟨⟨["001_a.sql"], []⟩, none⟩

/-- Healthy environment with two scripts of several statements each, listed out
of order by the directory. -/
def envC2 : Env :=
  { dirListing := some ["002_b.sql", "001_a.sql"]
    fileContents := fun f =>
      if f = "001_a.sql" then "CREATE TABLE a(x int); CREATE INDEX i ON a(x);".data
      else "CREATE TABLE b(y int);".data
    readFileFails := fun _ => false
    stmtFails := fun _ => false
    insertFails := fun _ => false
    ledgerReadFails := false
    pointLookupFails := false
    createTableFails := false }

/-- Environment whose single script fails on its second statement. -/
def envC3 : Env :=
  { dirListing := some ["001_init.sql"]
    fileContents := fun _ => "CREATE TABLE a(x int); BOOM;".data
    readFileFails := fun _ => false
    stmtFails := fun t => t == "BOOM".data
    insertFails := fun _ => false
    ledgerReadFails := false
    pointLookupFails := false
    createTableFails := false }

/-- Environment with two scripts where the second script's statement fails. -/
def envC4 : Env :=
  { dirListing := some ["001_init.sql", "002_add_col.sql"]
    fileContents := fun f =>
      if f = "001_init.sql" then "CREATE TABLE a(x int);".data else "BOOM;".data
    readFileFails := fun _ => false
    stmtFails := fun t => t == "BOOM".data
    insertFails := fun _ => false
    ledgerReadFails := false
    pointLookupFails := false
    createTableFails := false }

/-- Healthy environment whose single script holds the two-statement text used
in the statement-splitting example of the specification. -/
def envC5 : Env :=
  { dirListing := some ["001_init.sql"]
    fileContents := fun _ => "CREATE TABLE t(x int); INSERT INTO t VALUES (1);".data
    readFileFails := fun _ => false
    stmtFails := fun _ => false
    insertFails := fun _ => false
    ledgerReadFails := false
    pointLookupFails := false
    createTableFails := false }

/-- Environment in which the ledger list query fails while the directory read
succeeds. -/
def envC6 : Env :=
  { dirListing := some ["001_init.sql"]
    fileContents := fun _ => "CREATE TABLE a(x int);".data
    readFileFails := fun _ => false
    stmtFails := fun _ => false
    insertFails := fun _ => false
    ledgerReadFails := true
    pointLookupFails := false
    createTableFails := false }

/-- A connection whose ledger already holds the script of `envC6`. -/
def cC6 : Conn := ⟨⟨["001_init.sql"], []⟩, none⟩

/-- Environment in which both the directory read and the ledger list query
fail. -/
def envC7 : Env :=
  { dirListing := none
    fileContents := fun _ => []
    readFileFails := fun _ => false
    stmtFails := fun _ => false
    insertFails := fun _ => false
    ledgerReadFails := true
    pointLookupFails := false
    createTableFails := false }

/-- A connection with a non-empty ledger, used with `envC7`. -/
def cC7 : Conn := ⟨⟨["stale.sql"], []⟩, none⟩

/-- Environment with one healthy script but a persistently failing ledger list
query. -/
def envC8 : Env :=
  { dirListing := some ["001_init.sql"]
    fileContents := fun _ => "CREATE TABLE a(x int);".data
    readFileFails := fun _ => false
    stmtFails := fun _ => false
    insertFails := fun _ => false
    ledgerReadFails := true
    pointLookupFails := false
    createTableFails := false }

/-- Fully healthy environment with one script. -/
def envC8w : Env :=
  { dirListing := some ["001_init.sql"]
    fileContents := fun _ => "CREATE TABLE a(x int);".data
    readFileFails := fun _ => false
    stmtFails := fun _ => false
    insertFails := fun _ => false
    ledgerReadFails := false
    pointLookupFails := false
    createTableFails := false }

/-- Environment in which the point lookup of the ledger fails. -/
def envC10 : Env :=
  { dirListing := some ["001_init.sql"]
    fileContents := fun _ => []
    readFileFails := fun _ => false
    stmtFails := fun _ => false
    insertFails := fun _ => false
    ledgerReadFails := false
    pointLookupFails := true
    createTableFails := false }

/-- A connection whose ledger holds the script that `envC10` fails to look
up. -/
def cC10 : Conn := ⟨⟨["001_init.sql"], []⟩, none⟩

/-! Basic properties of the JS string helpers. -/

theorem dropWhile_dropWhile (p : Char → Bool) (l : List Char) :
    (l.dropWhile p).dropWhile p = l.dropWhile p := by
  induction l with
  | nil => simp
  | cons a t ih =>
    by_cases h : p a = true
    · simp [List.dropWhile_cons, h, ih]
    · simp [List.dropWhile_cons, h]

theorem dropWhile_decomp (p : Char → Bool) (l : List Char) :
    ∃ t, l = t ++ l.dropWhile p := by
  induction l with
  | nil => exact ⟨[], rfl⟩
  | cons a t ih =>
    by_cases h : p a = true
    · obtain ⟨u, hu⟩ := ih
      exact ⟨a :: u, by simp [List.dropWhile_cons, h]; exact hu⟩
    · exact ⟨[], by simp [List.dropWhile_cons, h]⟩

theorem head_false_of_dropWhile_eq_self {p : Char → Bool} {x : Char} {l : List Char}
    (h : (x :: l).dropWhile p = x :: l) : p x = false := by
  by_cases hx : p x = true
  · exfalso
    rw [List.dropWhile_cons, if_pos hx] at h
    have hle := (List.dropWhile_sublist (l := l) p).length_le
    rw [h] at hle
    simp at hle
  · simpa using hx

theorem dropWhile_backTrim {p : Char → Bool} {m : List Char}
    (h : m.dropWhile p = m) :
    ((m.reverse.dropWhile p).reverse).dropWhile p = (m.reverse.dropWhile p).reverse := by
  obtain ⟨t, ht⟩ := dropWhile_decomp p m.reverse
  cases hb : (m.reverse.dropWhile p).reverse with
  | nil => simp
  | cons x xs =>
    have hm : m = x :: (xs ++ t.reverse) := by
      have h1 : m = (m.reverse.dropWhile p).reverse ++ t.reverse := by
        have h2 := congrArg List.reverse ht
        simpa [List.reverse_append] using h2
      rw [h1, hb]
      simp
    have hx : p x = false := by
      have h' := h
      rw [hm] at h'
      exact head_false_of_dropWhile_eq_self h'
    rw [List.dropWhile_cons, hx]
    simp

theorem jsTrim_idem (s : List Char) : jsTrim (jsTrim s) = jsTrim s := by
  unfold jsTrim
  have hfix : (s.dropWhile Char.isWhitespace).dropWhile Char.isWhitespace
      = s.dropWhile Char.isWhitespace := dropWhile_dropWhile _ s
  rw [dropWhile_backTrim hfix]
  rw [List.reverse_reverse, dropWhile_dropWhile]

theorem jsTrim_of_mem_splitStatements {s : List Char} {t : List Char}
    (h : s ∈ splitStatements t) : jsTrim s = s ∧ s ≠ [] := by
  unfold splitStatements at h
  rw [List.mem_filter] at h
  obtain ⟨hmem, hlen⟩ := h
  obtain ⟨u, _, hu⟩ := List.mem_map.mp hmem
  constructor
  · rw [← hu, jsTrim_idem]
  · intro hnil
    rw [hnil] at hlen
    simp at hlen

theorem not_isEmpty_of_mem_splitStatements {s : List Char} {t : List Char}
    (h : s ∈ splitStatements t) : (jsTrim s).isEmpty = false := by
  obtain ⟨hfix, hne⟩ := jsTrim_of_mem_splitStatements h
  rw [hfix]
  cases s with
  | nil => exact absurd rfl hne
  | cons a l => rfl

/-! Bridging `List.contains` (JS `Array.prototype.includes`) with membership. -/

theorem contains_iff {l : List String} {a : String} : l.contains a = true ↔ a ∈ l :=
  List.elem_iff

theorem contains_eq_false_iff {l : List String} {a : String} :
    l.contains a = false ↔ a ∉ l := by
  rw [← Bool.not_eq_true, not_iff_not]
  exact contains_iff

/-! Small observations about traces. -/

theorem scriptStmts_append (a b : List Sql) :
    scriptStmts (a ++ b) = scriptStmts a ++ scriptStmts b :=
  List.filterMap_append a b _

theorem scriptStmts_map_stmt (l : List (List Char)) :
    scriptStmts (l.map Sql.stmt) = l := by
  induction l with
  | nil => rfl
  | cons a t ih => simpa [scriptStmts, List.filterMap_cons] using ih

/-! Behaviour of the statement loop inside a transaction. -/

theorem runStmtLoop_txn (env : Env) (stmts : List (List Char)) (c : Conn) (s : DbState)
    (h : c.txn = some s) :
    (runStmtLoop env c stmts).conn.committed = c.committed
    ∧ ∃ s', (runStmtLoop env c stmts).conn.txn = some s' ∧ s'.ledger = s.ledger := by
  induction stmts generalizing c s with
  | nil => exact ⟨rfl, s, h, rfl⟩
  | cons st rest ih =>
    cases c with
    | mk cc ct =>
      cases h
      by_cases he : (jsTrim st).isEmpty = true
      · simpa [runStmtLoop, he] using ih ⟨cc, some s⟩ s rfl
      · by_cases hf : env.stmtFails st = true
        · simp [runStmtLoop, he, hf, applySql]
        · have step := ih ⟨cc, some { s with effects := s.effects ++ [st] }⟩
            { s with effects := s.effects ++ [st] } rfl
          simpa [runStmtLoop, he, hf, applySql] using step

theorem runStmtLoop_ok_trace (env : Env) (stmts : List (List Char)) (c : Conn)
    (hall : ∀ s ∈ stmts, (jsTrim s).isEmpty = false)
    (hok : (runStmtLoop env c stmts).ok = true) :
    (runStmtLoop env c stmts).trace = stmts.map Sql.stmt := by
  induction stmts generalizing c with
  | nil => rfl
  | cons st rest ih =>
    have he : (jsTrim st).isEmpty = false := hall st (by simp)
    have hrest : ∀ s ∈ rest, (jsTrim s).isEmpty = false := fun s hs => hall s (by simp [hs])
    by_cases hf : env.stmtFails st = true
    · rw [runStmtLoop, he] at hok
      simp [applySql, hf] at hok
    · cases hc : c.txn with
      | none =>
        rw [runStmtLoop, he] at hok ⊢
        simp only [applySql, hf, hc, Bool.false_eq_true, if_false] at hok ⊢
        simpa using ih _ hrest (by simpa using hok)
      | some s =>
        rw [runStmtLoop, he] at hok ⊢
        simp only [applySql, hf, hc, Bool.false_eq_true, if_false] at hok ⊢
        simpa using ih _ hrest (by simpa using hok)

/-! Behaviour of `runMigration` on success and on failure. -/

theorem runMigration_ok (env : Env) (c : Conn) (f : String)
    (ht : c.txn = none) (hok : (runMigration env c f).ok = true) :
    (runMigration env c f).conn.committed.ledger = c.committed.ledger ++ [f]
    ∧ (runMigration env c f).conn.txn = none
    ∧ f ∉ c.committed.ledger
    ∧ (runMigration env c f).trace
        = Sql.beginTx :: (splitStatements (env.fileContents f)).map Sql.stmt
            ++ [Sql.insertLedger f, Sql.commitTx] := by
  cases c with
  | mk cc ct =>
    cases ht
    by_cases hrf : env.readFileFails f = true
    · rw [runMigration, if_pos hrf] at hok
      simp at hok
    · obtain ⟨hcomm, s', hstxn, hsled⟩ :=
        runStmtLoop_txn env (splitStatements (env.fileContents f)) ⟨cc, some cc⟩ cc rfl
      have hcomm' : (runStmtLoop env ⟨cc, some cc⟩
          (splitStatements (env.fileContents f))).conn.committed = cc := by simpa using hcomm
      have hconn : (runStmtLoop env ⟨cc, some cc⟩
          (splitStatements (env.fileContents f))).conn = (⟨cc, some s'⟩ : Conn) := by
        cases hx : (runStmtLoop env ⟨cc, some cc⟩
            (splitStatements (env.fileContents f))).conn with
        | mk a b =>
          rw [hx] at hcomm' hstxn
          have ha : a = cc := hcomm'
          have hb : b = some s' := hstxn
          rw [ha, hb]
      cases hr : (runStmtLoop env ⟨cc, some cc⟩ (splitStatements (env.fileContents f))).ok with
      | false =>
        rw [runMigration, if_neg (by simp [hrf])] at hok
        simp only [applySql] at hok
        rw [hr] at hok
        simp at hok
      | true =>
        by_cases hcond : (env.insertFails f || s'.ledger.contains f) = true
        · rw [runMigration, if_neg (by simp [hrf])] at hok
          simp only [applySql] at hok
          rw [hr, hconn] at hok
          rw [if_pos (show (env.insertFails f
              || ((⟨cc, some s'⟩ : Conn).view.ledger.contains f)) = true from hcond)] at hok
          simp at hok
        · have hcond2 : (env.insertFails f || s'.ledger.contains f) = false := by
            simpa using hcond
          rw [Bool.or_eq_false_iff] at hcond2
          have hnomem : f ∉ cc.ledger := by
            have h2 := hcond2.2
            rw [hsled] at h2
            exact contains_eq_false_iff.mp h2
          have htr := runStmtLoop_ok_trace env (splitStatements (env.fileContents f))
            ⟨cc, some cc⟩ (fun s hs => not_isEmpty_of_mem_splitStatements hs) hr
          rw [runMigration, if_neg (by simp [hrf])]
          simp only [applySql]
          rw [hr, hconn, htr]
          rw [if_neg (show ¬ (env.insertFails f
              || ((⟨cc, some s'⟩ : Conn).view.ledger.contains f)) = true from hcond)]
          simp [hsled, hnomem]

theorem runMigration_fail (env : Env) (c : Conn) (f : String)
    (ht : c.txn = none) (hfail : (runMigration env c f).ok = false) :
    (runMigration env c f).conn.committed = c.committed
    ∧ (runMigration env c f).conn.txn = none := by
  cases c with
  | mk cc ct =>
    cases ht
    by_cases hrf : env.readFileFails f = true
    · rw [runMigration, if_pos hrf]
      exact ⟨rfl, rfl⟩
    · obtain ⟨hcomm, s', hstxn, hsled⟩ :=
        runStmtLoop_txn env (splitStatements (env.fileContents f)) ⟨cc, some cc⟩ cc rfl
      have hcomm' : (runStmtLoop env ⟨cc, some cc⟩
          (splitStatements (env.fileContents f))).conn.committed = cc := by simpa using hcomm
      have hconn : (runStmtLoop env ⟨cc, some cc⟩
          (splitStatements (env.fileContents f))).conn = (⟨cc, some s'⟩ : Conn) := by
        cases hx : (runStmtLoop env ⟨cc, some cc⟩
            (splitStatements (env.fileContents f))).conn with
        | mk a b =>
          rw [hx] at hcomm' hstxn
          have ha : a = cc := hcomm'
          have hb : b = some s' := hstxn
          rw [ha, hb]
      cases hr : (runStmtLoop env ⟨cc, some cc⟩ (splitStatements (env.fileContents f))).ok with
      | false =>
        rw [runMigration, if_neg (by simp [hrf])]
        simp only [applySql]
        rw [hr, hconn]
        simp [applySql]
      | true =>
        by_cases hcond : (env.insertFails f || s'.ledger.contains f) = true
        · rw [runMigration, if_neg (by simp [hrf])]
          simp only [applySql]
          rw [hr, hconn]
          rw [if_pos (show (env.insertFails f
              || ((⟨cc, some s'⟩ : Conn).view.ledger.contains f)) = true from hcond)]
          simp [applySql]
        · exfalso
          rw [runMigration, if_neg (by simp [hrf])] at hfail
          simp only [applySql] at hfail
          rw [hr, hconn] at hfail
          rw [if_neg (show ¬ (env.insertFails f
              || ((⟨cc, some s'⟩ : Conn).view.ledger.contains f)) = true from hcond)] at hfail
          simp at hfail

theorem getLast?_cons_append_single (a d : Sql) (l : List Sql) :
    (a :: l ++ [d]).getLast? = some d := by
  have h : a :: l ++ [d] = (a :: l) ++ [d] := by simp
  rw [h, List.getLast?_concat]

theorem getLast?_cons_append_pair (a b d : Sql) (l : List Sql) :
    (a :: l ++ [b, d]).getLast? = some d := by
  have h : a :: l ++ [b, d] = (a :: l ++ [b]) ++ [d] := by simp
  rw [h, List.getLast?_concat]

theorem runMigration_fail_trace (env : Env) (c : Conn) (f : String)
    (ht : c.txn = none) (hrf : env.readFileFails f = false)
    (hfail : (runMigration env c f).ok = false) :
    (runMigration env c f).trace.getLast? = some Sql.rollbackTx := by
  cases c with
  | mk cc ct =>
    cases ht
    obtain ⟨hcomm, s', hstxn, hsled⟩ :=
      runStmtLoop_txn env (splitStatements (env.fileContents f)) ⟨cc, some cc⟩ cc rfl
    have hcomm' : (runStmtLoop env ⟨cc, some cc⟩
        (splitStatements (env.fileContents f))).conn.committed = cc := by simpa using hcomm
    have hconn : (runStmtLoop env ⟨cc, some cc⟩
        (splitStatements (env.fileContents f))).conn = (⟨cc, some s'⟩ : Conn) := by
      cases hx : (runStmtLoop env ⟨cc, some cc⟩
          (splitStatements (env.fileContents f))).conn with
      | mk a b =>
        rw [hx] at hcomm' hstxn
        have ha : a = cc := hcomm'
        have hb : b = some s' := hstxn
        rw [ha, hb]
    cases hr : (runStmtLoop env ⟨cc, some cc⟩ (splitStatements (env.fileContents f))).ok with
    | false =>
      rw [runMigration, if_neg (by simp [hrf])]
      simp only [applySql]
      rw [hr]
      simp only [Bool.false_eq_true, if_false]
      exact getLast?_cons_append_single _ _ _
    | true =>
      by_cases hcond : (env.insertFails f || s'.ledger.contains f) = true
      · rw [runMigration, if_neg (by simp [hrf])]
        simp only [applySql]
        rw [hr, hconn]
        rw [if_pos (show (env.insertFails f
            || ((⟨cc, some s'⟩ : Conn).view.ledger.contains f)) = true from hcond)]
        exact getLast?_cons_append_pair _ _ _ _
      · exfalso
        rw [runMigration, if_neg (by simp [hrf])] at hfail
        simp only [applySql] at hfail
        rw [hr, hconn] at hfail
        rw [if_neg (show ¬ (env.insertFails f
            || ((⟨cc, some s'⟩ : Conn).view.ledger.contains f)) = true from hcond)] at hfail
        simp at hfail

/-! Behaviour of the migration loop. -/

theorem scriptStmts_mig_trace (S : List (List Char)) (f : String) :
    scriptStmts (Sql.beginTx :: S.map Sql.stmt ++ [Sql.insertLedger f, Sql.commitTx]) = S := by
  induction S with
  | nil => rfl
  | cons s t ih =>
    simp only [scriptStmts, List.filterMap_cons, List.map_cons, List.cons_append] at ih ⊢
    simpa using ih

theorem runLoop_ok (env : Env) (fs : List String) (c : Conn)
    (ht : c.txn = none) (hok : (runLoop env c fs).ok = true) :
    (runLoop env c fs).conn.committed.ledger = c.committed.ledger ++ fs
    ∧ (runLoop env c fs).conn.txn = none
    ∧ ∀ f ∈ fs, f ∉ c.committed.ledger := by
  induction fs generalizing c with
  | nil => exact ⟨by simp [runLoop], by simpa [runLoop] using ht, by simp⟩
  | cons f rest ih =>
    cases hr : (runMigration env c f).ok with
    | false => simp [runLoop, hr] at hok
    | true =>
      obtain ⟨hled, htxn, hnm, _⟩ := runMigration_ok env c f ht hr
      have hok2 : (runLoop env (runMigration env c f).conn rest).ok = true := by
        simp only [runLoop, hr, if_true] at hok
        exact hok
      obtain ⟨ihled, ihtxn, ihnm⟩ := ih (runMigration env c f).conn htxn hok2
      refine ⟨?_, ?_, ?_⟩
      · simp only [runLoop, hr, if_true]
        rw [ihled, hled]
        simp
      · simp only [runLoop, hr, if_true]
        exact ihtxn
      · intro g hg
        rcases List.mem_cons.mp hg with hgf | hg'
        · rw [hgf]; exact hnm
        · intro hmem
          exact ihnm g hg' (by rw [hled]; simp [hmem])

theorem runLoop_ok_trace (env : Env) (fs : List String) (c : Conn)
    (ht : c.txn = none) (hok : (runLoop env c fs).ok = true) :
    scriptStmts (runLoop env c fs).trace
      = (fs.map (fun f => splitStatements (env.fileContents f))).flatten := by
  induction fs generalizing c with
  | nil => simp [runLoop, scriptStmts]
  | cons f rest ih =>
    cases hr : (runMigration env c f).ok with
    | false => simp [runLoop, hr] at hok
    | true =>
      obtain ⟨hled, htxn, hnm, htr⟩ := runMigration_ok env c f ht hr
      have hok2 : (runLoop env (runMigration env c f).conn rest).ok = true := by
        simp only [runLoop, hr, if_true] at hok
        exact hok
      have ihtr := ih (runMigration env c f).conn htxn hok2
      simp only [runLoop, hr, if_true]
      rw [scriptStmts_append, htr, ihtr, scriptStmts_mig_trace]
      simp

theorem runLoop_fail (env : Env) (fs : List String) (c : Conn)
    (ht : c.txn = none) (hfail : (runLoop env c fs).ok = false) :
    ∃ i, ∃ h : i < fs.length,
      (runLoop env c (fs.take i)).ok = true
      ∧ (runMigration env (runLoop env c (fs.take i)).conn (fs.get ⟨i, h⟩)).ok = false
      ∧ (runLoop env c fs).conn
          = (runMigration env (runLoop env c (fs.take i)).conn (fs.get ⟨i, h⟩)).conn
      ∧ (runLoop env c fs).trace
          = (runLoop env c (fs.take i)).trace
            ++ (runMigration env (runLoop env c (fs.take i)).conn (fs.get ⟨i, h⟩)).trace
      ∧ (runLoop env c fs).conn.committed.ledger = c.committed.ledger ++ fs.take i := by
  induction fs generalizing c with
  | nil => simp [runLoop] at hfail
  | cons f rest ih =>
    cases hr : (runMigration env c f).ok with
    | false =>
      refine ⟨0, by simp, by simp [runLoop], ?_, ?_, ?_, ?_⟩
      · simpa [runLoop] using hr
      · simp [runLoop, hr]
      · simp [runLoop, hr]
      · simp only [runLoop, hr, Bool.false_eq_true, if_false, List.take_zero, List.append_nil]
        obtain ⟨hc, _⟩ := runMigration_fail env c f ht hr
        rw [hc]
    | true =>
      obtain ⟨hled, htxn, hnm, _⟩ := runMigration_ok env c f ht hr
      have hfail2 : (runLoop env (runMigration env c f).conn rest).ok = false := by
        simp only [runLoop, hr, if_true] at hfail
        exact hfail
      obtain ⟨i, hi, p1, p2, p3, p4, p5⟩ := ih (runMigration env c f).conn htxn hfail2
      refine ⟨i + 1, by simpa using hi, ?_, ?_, ?_, ?_, ?_⟩
      · simp only [List.take_succ_cons, runLoop, hr, if_true]
        exact p1
      · simp only [List.take_succ_cons, runLoop, hr, if_true]
        exact p2
      · simp only [List.take_succ_cons, runLoop, hr, if_true]
        exact p3
      · simp only [List.take_succ_cons, runLoop, hr, if_true]
        rw [p4]
        simp
      · simp only [List.take_succ_cons, runLoop, hr, if_true]
        rw [p5, hled]
        simp

/-! Reading the ledger and the pending set. -/

theorem view_of_txn_none {c : Conn} (ht : c.txn = none) : c.view = c.committed := by
  rw [Conn.view, ht]
  rfl

theorem mem_getAppliedMigrations (env : Env) (c : Conn) (hl : env.ledgerReadFails = false)
    (x : String) : x ∈ getAppliedMigrations env c ↔ x ∈ c.view.ledger := by
  rw [getAppliedMigrations, if_neg (by simp [hl])]
  exact List.mem_insertionSort fileLe

theorem getAppliedMigrations_of_fail (env : Env) (c : Conn) (hl : env.ledgerReadFails = true) :
    getAppliedMigrations env c = [] := by
  rw [getAppliedMigrations, if_pos hl]

theorem pendingOf_eq_of_ok (env : Env) (c : Conn) (hl : env.ledgerReadFails = false)
    (ht : c.txn = none) :
    pendingOf env c
      = (getMigrationFiles env).filter (fun f => !(c.committed.ledger.contains f)) := by
  apply List.filter_congr
  intro x _
  have h1 : (getAppliedMigrations env c).contains x = c.committed.ledger.contains x := by
    rw [Bool.eq_iff_iff, contains_iff, contains_iff, mem_getAppliedMigrations env c hl,
      view_of_txn_none ht]
  rw [h1]

theorem pendingOf_of_fail (env : Env) (c : Conn) (hl : env.ledgerReadFails = true) :
    pendingOf env c = getMigrationFiles env := by
  rw [pendingOf, getAppliedMigrations_of_fail env c hl]
  apply List.filter_eq_self.mpr
  intro a _
  rfl

/-! Unfolding `runPendingMigrations`. -/

theorem runPendingMigrations_eq (env : Env) (c : Conn) (hct : env.createTableFails = false) :
    runPendingMigrations env c
      = if (pendingOf env c).isEmpty then ⟨true, c, [Sql.createTable]⟩
        else ⟨(runLoop env c (pendingOf env c)).ok, (runLoop env c (pendingOf env c)).conn,
            Sql.createTable :: (runLoop env c (pendingOf env c)).trace⟩ := by
  rw [runPendingMigrations]
  simp [applySql, hct]

theorem runPendingMigrations_ctfail (env : Env) (c : Conn)
    (hct : env.createTableFails = true) :
    runPendingMigrations env c = ⟨false, c, [Sql.createTable]⟩ := by
  rw [runPendingMigrations]
  simp [applySql, hct]

/-! Sortedness facts. -/

theorem fileLe_iff {a b : String} : fileLe a b ↔ a ≤ b :=
  ⟨fun h => String.le_iff_toList_le.mpr h, fun h => String.le_iff_toList_le.mp h⟩

theorem sorted_getMigrationFiles (env : Env) :
    List.Sorted fileLe (getMigrationFiles env) := by
  rw [getMigrationFiles]
  cases env.dirListing with
  | none => exact List.sorted_nil
  | some files => exact List.sorted_insertionSort fileLe _

theorem sorted_pendingOf (env : Env) (c : Conn) :
    List.Sorted fileLe (pendingOf env c) :=
  List.Pairwise.filter _ (sorted_getMigrationFiles env)

theorem scriptStmts_cons_createTable (t : List Sql) :
    scriptStmts (Sql.createTable :: t) = scriptStmts t := rfl

/-- C3: when a script's application fails after the file was read (a statement
execution fails or the ledger insert fails), `runMigration` issues a ROLLBACK
as its last executor call before propagating the error; the committed state is
unchanged, no transaction is left open, and in particular no statement effect
and no ledger entry of this script persists. -/
theorem migration_failure_rolls_back (env : Env) (c : Conn) (f : String)
    (ht : c.txn = none) (hread : env.readFileFails f = false)
    (hfail : (runMigration env c f).ok = false) :
    (runMigration env c f).conn.committed = c.committed
    ∧ (runMigration env c f).conn.txn = none
    ∧ (runMigration env c f).trace.getLast? = some Sql.rollbackTx
    ∧ (f ∉ c.committed.ledger → f ∉ (runMigration env c f).conn.committed.ledger) := by
  obtain ⟨h1, h2⟩ := runMigration_fail env c f ht hfail
  refine ⟨h1, h2, runMigration_fail_trace env c f ht hread hfail, ?_⟩
  intro hn
  rw [h1]
  exact hn

/-- C3 witness: a two-statement script whose second statement fails leaves the
committed state untouched — the first statement's effects and the ledger entry
do not persist, and the trace ends in a ROLLBACK. -/
theorem migration_failure_rolls_back_witness :
    (runMigration envC3 connEmpty "001_init.sql").ok = false
    ∧ ((runMigration envC3 connEmpty "001_init.sql").conn.committed = connEmpty.committed
        ∧ (runMigration envC3 connEmpty "001_init.sql").conn.txn = none
        ∧ (runMigration envC3 connEmpty "001_init.sql").trace.getLast? = some Sql.rollbackTx
        ∧ ("001_init.sql" ∉ connEmpty.committed.ledger
            → "001_init.sql" ∉ (runMigration envC3 connEmpty "001_init.sql").conn.committed.ledger)) :=
  ⟨by decide, migration_failure_rolls_back envC3 connEmpty "001_init.sql" rfl rfl (by decide)⟩

/-- C5: a successful `runMigration` executes exactly the statements obtained
by splitting the raw script text on the semicolon character, trimming each
piece and dropping the pieces that are empty after trimming, in source
order. -/
theorem migration_executes_split_statements (env : Env) (c : Conn) (f : String)
    (ht : c.txn = none) (hok : (runMigration env c f).ok = true) :
    scriptStmts (runMigration env c f).trace = splitStatements (env.fileContents f) := by
  obtain ⟨_, _, _, htr⟩ := runMigration_ok env c f ht hok
  rw [htr, scriptStmts_mig_trace]

/-- C5 witness: the script text
`"CREATE TABLE t(x int); INSERT INTO t VALUES (1);"` yields exactly two
executed statements, in source order, with no empty-statement executions. -/
theorem migration_executes_split_statements_witness :
    (runMigration envC5 connEmpty "001_init.sql").ok = true
    ∧ scriptStmts (runMigration envC5 connEmpty "001_init.sql").trace
        = ["CREATE TABLE t(x int)".data, "INSERT INTO t VALUES (1)".data] :=
  ⟨by decide,
    (migration_executes_split_statements envC5 connEmpty "001_init.sql" rfl (by decide)).trans
      (by decide)⟩

/-- C6 counterexample: the claim says `getStatus` fails and reports nothing
when a dependency read fails.  With the ledger list query failing and a
non-empty ledger, `getStatus` instead returns a full (degraded) report:
applied count 0, the discovered script listed as pending. -/
theorem getStatus_dependency_failure_cex :
    envC6.ledgerReadFails = true
    ∧ cC6.committed.ledger = ["001_init.sql"]
    ∧ getStatus envC6 cC6 = ⟨1, 0, 1, [], ["001_init.sql"]⟩ := by
  refine ⟨rfl, rfl, ?_⟩
  decide

/-- C6 amended: on a ledger read failure `getStatus` does not fail; the
failing helper returns the empty list, so `getStatus` returns a degraded
status computed from it — applied count 0, empty applied list, and the whole
discovered set reported pending. -/
theorem getStatus_degraded_on_ledger_failure (env : Env) (c : Conn)
    (hl : env.ledgerReadFails = true) :
    getStatus env c
      = ⟨(getMigrationFiles env).length, 0, (getMigrationFiles env).length, [],
          getMigrationFiles env⟩ := by
  rw [getStatus, getAppliedMigrations_of_fail env c hl]
  have hf : (getMigrationFiles env).filter (fun f => !(([] : List String).contains f))
      = getMigrationFiles env := List.filter_eq_self.mpr (fun a _ => rfl)
  simp [hf]

/-- C6 amended witness: with the ledger unreadable and one discovered script,
`getStatus` returns the degraded report rather than failing. -/
theorem getStatus_degraded_on_ledger_failure_witness :
    envC6.ledgerReadFails = true
    ∧ getStatus envC6 cC6
        = ⟨(getMigrationFiles envC6).length, 0, (getMigrationFiles envC6).length, [],
            getMigrationFiles envC6⟩ :=
  ⟨rfl, getStatus_degraded_on_ledger_failure envC6 cC6 rfl⟩

/-- C7: a failing directory read makes `getMigrationFiles` return the empty
list, a failing ledger list query makes `getAppliedMigrations` return the
empty list (so the caller treats every discovered script as pending), and with
no scripts discovered `runPendingMigrations` terminates successfully having
issued only the ledger-table creation — fail-open behaviour. -/
theorem read_failures_swallowed (env : Env) (c : Conn) :
    (env.dirListing = none → getMigrationFiles env = [])
    ∧ (env.ledgerReadFails = true → getAppliedMigrations env c = [])
    ∧ (env.ledgerReadFails = true → pendingOf env c = getMigrationFiles env)
    ∧ (env.dirListing = none → env.createTableFails = false →
        runPendingMigrations env c = ⟨true, c, [Sql.createTable]⟩) := by
  refine ⟨?_, fun hl => getAppliedMigrations_of_fail env c hl,
    fun hl => pendingOf_of_fail env c hl, ?_⟩
  · intro hd
    simp [getMigrationFiles, hd]
  · intro hd hct
    have hp : pendingOf env c = [] := by
      simp [pendingOf, getMigrationFiles, hd]
    rw [runPendingMigrations_eq env c hct, hp]
    rfl

/-- C7 witness: with the directory unreadable and the ledger list query
failing, both helpers return empty, the pending set is empty, and the run is
a successful no-op apart from the ledger-table creation. -/
theorem read_failures_swallowed_witness :
    getMigrationFiles envC7 = []
    ∧ getAppliedMigrations envC7 cC7 = []
    ∧ pendingOf envC7 cC7 = []
    ∧ runPendingMigrations envC7 cC7 = ⟨true, cC7, [Sql.createTable]⟩ :=
  ⟨(read_failures_swallowed envC7 cC7).1 rfl,
    (read_failures_swallowed envC7 cC7).2.1 rfl,
    ((read_failures_swallowed envC7 cC7).2.2.1 rfl).trans
      ((read_failures_swallowed envC7 cC7).1 rfl),
    (read_failures_swallowed envC7 cC7).2.2.2 rfl rfl⟩

/-- C10: `isMigrationApplied` returns `false` both when the point lookup
itself fails (whatever the ledger holds) and when no ledger row for the
filename exists; the two situations are indistinguishable from its result. -/
theorem isMigrationApplied_false_cases (env : Env) (c : Conn) (f : String)
    (h : env.pointLookupFails = true ∨ f ∉ c.view.ledger) :
    isMigrationApplied env c f = false := by
  rcases h with h | h
  · rw [isMigrationApplied, if_pos h]
  · rw [isMigrationApplied]
    by_cases hp : env.pointLookupFails = true
    · rw [if_pos hp]
    · rw [if_neg hp]
      exact contains_eq_false_iff.mpr h

/-- C10 witness: with the lookup failing, `isMigrationApplied` answers `false`
even though the filename is in the ledger — the caller cannot tell "not
applied" from "ledger unreadable". -/
theorem isMigrationApplied_false_cases_witness :
    envC10.pointLookupFails = true
    ∧ cC10.committed.ledger = ["001_init.sql"]
    ∧ isMigrationApplied envC10 cC10 "001_init.sql" = false :=
  ⟨rfl, rfl, isMigrationApplied_false_cases envC10 cC10 "001_init.sql" (Or.inl rfl)⟩

/-- C1: if every ledger entry is one of the discovered filenames, then a
successful run appends to the ledger exactly the discovered scripts that were
not yet in it (in discovery order), and afterwards the set of ledger filenames
equals the set of discovered filenames. -/
theorem run_applies_exactly_missing (env : Env) (c : Conn)
    (hsub : ∀ f ∈ c.committed.ledger, f ∈ getMigrationFiles env)
    (ht : c.txn = none)
    (hok : (runPendingMigrations env c).ok = true) :
    (runPendingMigrations env c).conn.committed.ledger
      = c.committed.ledger
        ++ (getMigrationFiles env).filter (fun f => !(c.committed.ledger.contains f))
    ∧ ((runPendingMigrations env c).conn.committed.ledger).toFinset
        = (getMigrationFiles env).toFinset := by
  by_cases hct : env.createTableFails = true
  · rw [runPendingMigrations_ctfail env c hct] at hok
    simp at hok
  · have hct' : env.createTableFails = false := by simpa using hct
    rw [runPendingMigrations_eq env c hct'] at hok ⊢
    by_cases hpe : (pendingOf env c).isEmpty = true
    · rw [if_pos hpe] at hok ⊢
      have hpnil : pendingOf env c = [] := List.isEmpty_iff.mp hpe
      by_cases hl : env.ledgerReadFails = true
      · have hfiles : getMigrationFiles env = [] := by
          rw [← pendingOf_of_fail env c hl, hpnil]
        have hlednil : c.committed.ledger = [] := by
          rw [List.eq_nil_iff_forall_not_mem]
          intro a ha
          have haf := hsub a ha
          rw [hfiles] at haf
          simp at haf
        constructor
        · show c.committed.ledger = _
          rw [hlednil, hfiles]
          rfl
        · show c.committed.ledger.toFinset = _
          rw [hlednil, hfiles]
      · have hl' : env.ledgerReadFails = false := by simpa using hl
        have hpend := pendingOf_eq_of_ok env c hl' ht
        have hfilterNil : (getMigrationFiles env).filter
            (fun f => !(c.committed.ledger.contains f)) = [] := by
          rw [← hpend, hpnil]
        constructor
        · show c.committed.ledger = _
          rw [hfilterNil]
          simp
        · show c.committed.ledger.toFinset = _
          apply Finset.ext
          intro a
          rw [List.mem_toFinset, List.mem_toFinset]
          constructor
          · exact fun ha => hsub a ha
          · intro ha
            have hnil := List.filter_eq_nil_iff.mp hfilterNil a ha
            have hb : c.committed.ledger.contains a = true := by
              cases hcb : c.committed.ledger.contains a
              · rw [hcb] at hnil
                simp at hnil
              · rfl
            exact contains_iff.mp hb
    · rw [if_neg hpe] at hok ⊢
      have hok' : (runLoop env c (pendingOf env c)).ok = true := hok
      obtain ⟨hled, htxn, hnm⟩ := runLoop_ok env (pendingOf env c) c ht hok'
      by_cases hl : env.ledgerReadFails = true
      · have hpf := pendingOf_of_fail env c hl
        have hlednil : c.committed.ledger = [] := by
          rw [List.eq_nil_iff_forall_not_mem]
          intro a ha
          exact hnm a (by rw [hpf]; exact hsub a ha) ha
        constructor
        · show (runLoop env c (pendingOf env c)).conn.committed.ledger = _
          rw [hled, hpf, hlednil]
          have hfilterAll : (getMigrationFiles env).filter
              (fun f => !(([] : List String).contains f)) = getMigrationFiles env :=
            List.filter_eq_self.mpr (fun a _ => rfl)
          rw [hfilterAll]
        · show ((runLoop env c (pendingOf env c)).conn.committed.ledger).toFinset = _
          rw [hled, hpf, hlednil]
          rfl
      · have hl' : env.ledgerReadFails = false := by simpa using hl
        have hpend := pendingOf_eq_of_ok env c hl' ht
        constructor
        · show (runLoop env c (pendingOf env c)).conn.committed.ledger = _
          rw [hled, hpend]
        · apply Finset.ext
          intro a
          rw [List.mem_toFinset, List.mem_toFinset]
          show a ∈ (runLoop env c (pendingOf env c)).conn.committed.ledger ↔ _
          rw [hled]
          constructor
          · intro ha
            rcases List.mem_append.mp ha with h1 | h2
            · exact hsub a h1
            · rw [hpend] at h2
              exact (List.mem_filter.mp h2).1
          · intro ha
            by_cases hc2 : a ∈ c.committed.ledger
            · exact List.mem_append.mpr (Or.inl hc2)
            · refine List.mem_append.mpr (Or.inr ?_)
              rw [hpend, List.mem_filter]
              exact ⟨ha, by simp [hc2]⟩

/-- C1 witness: with scripts `001_a.sql`, `002_b.sql` discovered and
`001_a.sql` already in the ledger, a successful run applies exactly
`002_b.sql` and the ledger set afterwards equals the discovered set. -/
theorem run_applies_exactly_missing_witness :
    (runPendingMigrations envC1 cC1).ok = true
    ∧ (runPendingMigrations envC1 cC1).conn.committed.ledger = ["001_a.sql", "002_b.sql"]
    ∧ ((runPendingMigrations envC1 cC1).conn.committed.ledger).toFinset
        = (getMigrationFiles envC1).toFinset := by
  have h := run_applies_exactly_missing envC1 cC1 (by decide) rfl (by decide)
  refine ⟨by decide, ?_, h.2⟩
  rw [h.1]
  decide

/-- C2: on a successful run the scripts are applied (appended to the ledger)
in exactly the order of the pending list, which is sorted ascending in the
lexicographic order on filenames; across scripts the executor sees the
statements of the pending scripts concatenated in that same order. -/
theorem run_applies_in_lex_order (env : Env) (c : Conn)
    (ht : c.txn = none) (hok : (runPendingMigrations env c).ok = true) :
    (runPendingMigrations env c).conn.committed.ledger
      = c.committed.ledger ++ pendingOf env c
    ∧ List.Sorted (fun a b : String => a ≤ b) (pendingOf env c)
    ∧ List.insertionSort fileLe (pendingOf env c) = pendingOf env c
    ∧ scriptStmts (runPendingMigrations env c).trace
      = ((pendingOf env c).map (fun f => splitStatements (env.fileContents f))).flatten := by
  have hsorted : List.Sorted (fun a b : String => a ≤ b) (pendingOf env c) :=
    List.Pairwise.imp (fun h => fileLe_iff.mp h) (sorted_pendingOf env c)
  have hsortEq : List.insertionSort fileLe (pendingOf env c) = pendingOf env c :=
    List.Sorted.insertionSort_eq (sorted_pendingOf env c)
  by_cases hct : env.createTableFails = true
  · rw [runPendingMigrations_ctfail env c hct] at hok
    simp at hok
  · have hct' : env.createTableFails = false := by simpa using hct
    rw [runPendingMigrations_eq env c hct'] at hok ⊢
    by_cases hpe : (pendingOf env c).isEmpty = true
    · rw [if_pos hpe] at hok ⊢
      have hpnil : pendingOf env c = [] := List.isEmpty_iff.mp hpe
      refine ⟨?_, hsorted, hsortEq, ?_⟩
      · show c.committed.ledger = _
        rw [hpnil]
        simp
      · show scriptStmts [Sql.createTable] = _
        rw [hpnil]
        rfl
    · rw [if_neg hpe] at hok ⊢
      have hok' : (runLoop env c (pendingOf env c)).ok = true := hok
      obtain ⟨hled, htxn, hnm⟩ := runLoop_ok env (pendingOf env c) c ht hok'
      refine ⟨hled, hsorted, hsortEq, ?_⟩
      show scriptStmts (Sql.createTable :: (runLoop env c (pendingOf env c)).trace) = _
      rw [scriptStmts_cons_createTable]
      exact runLoop_ok_trace env (pendingOf env c) c ht hok'

/-- C2 witness: with `002_b.sql` listed before `001_a.sql` by the directory,
the run applies them in sorted order `001_a.sql`, `002_b.sql`, and the
executor sees the statements of `001_a.sql` (both of them, in source order)
before the statement of `002_b.sql`. -/
theorem run_applies_in_lex_order_witness :
    (runPendingMigrations envC2 connEmpty).ok = true
    ∧ pendingOf envC2 connEmpty = ["001_a.sql", "002_b.sql"]
    ∧ (runPendingMigrations envC2 connEmpty).conn.committed.ledger
        = ["001_a.sql", "002_b.sql"]
    ∧ scriptStmts (runPendingMigrations envC2 connEmpty).trace
        = ["CREATE TABLE a(x int)".data, "CREATE INDEX i ON a(x)".data,
            "CREATE TABLE b(y int)".data] := by
  have h := run_applies_in_lex_order envC2 connEmpty rfl (by decide)
  refine ⟨by decide, by decide, ?_, ?_⟩
  · rw [h.1]
    decide
  · rw [h.2.2.2]
    decide

/-- C4: when the run fails (and the ledger-table creation itself succeeded),
there is a first failing pending script: every pending script before it was
applied successfully, the run's final state and trace are exactly those of the
earlier applications plus the failing attempt — no later pending script is attempted — and
the ledger afterwards holds exactly the old entries plus the pending scripts
strictly before the failing one. -/
theorem run_aborts_at_first_failure (env : Env) (c : Conn)
    (ht : c.txn = none) (hct : env.createTableFails = false)
    (hfail : (runPendingMigrations env c).ok = false) :
    ∃ i, ∃ h : i < (pendingOf env c).length,
      (runLoop env c ((pendingOf env c).take i)).ok = true
      ∧ (runMigration env (runLoop env c ((pendingOf env c).take i)).conn
          ((pendingOf env c).get ⟨i, h⟩)).ok = false
      ∧ (runPendingMigrations env c).conn
          = (runMigration env (runLoop env c ((pendingOf env c).take i)).conn
              ((pendingOf env c).get ⟨i, h⟩)).conn
      ∧ (runPendingMigrations env c).trace
          = Sql.createTable :: (runLoop env c ((pendingOf env c).take i)).trace
            ++ (runMigration env (runLoop env c ((pendingOf env c).take i)).conn
                ((pendingOf env c).get ⟨i, h⟩)).trace
      ∧ (runPendingMigrations env c).conn.committed.ledger
          = c.committed.ledger ++ (pendingOf env c).take i := by
  rw [runPendingMigrations_eq env c hct] at hfail ⊢
  by_cases hpe : (pendingOf env c).isEmpty = true
  · rw [if_pos hpe] at hfail
    simp at hfail
  · rw [if_neg hpe] at hfail ⊢
    have hfail' : (runLoop env c (pendingOf env c)).ok = false := hfail
    obtain ⟨i, h, p1, p2, p3, p4, p5⟩ := runLoop_fail env (pendingOf env c) c ht hfail'
    refine ⟨i, h, p1, p2, ?_, ?_, ?_⟩
    · exact p3
    · show Sql.createTable :: (runLoop env c (pendingOf env c)).trace = _
      rw [p4, List.cons_append]
    · show (runLoop env c (pendingOf env c)).conn.committed.ledger = _
      exact p5

/-- C4 witness: `001_init.sql` applies cleanly and `002_add_col.sql` fails;
the run fails, the ledger holds exactly `001_init.sql`, and the run is the
successful first application plus the failing attempt. -/
theorem run_aborts_at_first_failure_witness :
    (runPendingMigrations envC4 connEmpty).ok = false
    ∧ (runPendingMigrations envC4 connEmpty).conn.committed.ledger = ["001_init.sql"]
    ∧ (∃ i, ∃ h : i < (pendingOf envC4 connEmpty).length,
        (runLoop envC4 connEmpty ((pendingOf envC4 connEmpty).take i)).ok = true
        ∧ (runMigration envC4
            (runLoop envC4 connEmpty ((pendingOf envC4 connEmpty).take i)).conn
            ((pendingOf envC4 connEmpty).get ⟨i, h⟩)).ok = false
        ∧ (runPendingMigrations envC4 connEmpty).conn
            = (runMigration envC4
                (runLoop envC4 connEmpty ((pendingOf envC4 connEmpty).take i)).conn
                ((pendingOf envC4 connEmpty).get ⟨i, h⟩)).conn
        ∧ (runPendingMigrations envC4 connEmpty).trace
            = Sql.createTable
              :: (runLoop envC4 connEmpty ((pendingOf envC4 connEmpty).take i)).trace
              ++ (runMigration envC4
                  (runLoop envC4 connEmpty ((pendingOf envC4 connEmpty).take i)).conn
                  ((pendingOf envC4 connEmpty).get ⟨i, h⟩)).trace
        ∧ (runPendingMigrations envC4 connEmpty).conn.committed.ledger
            = connEmpty.committed.ledger ++ (pendingOf envC4 connEmpty).take i) :=
  ⟨by decide, by decide,
    run_aborts_at_first_failure envC4 connEmpty rfl rfl (by decide)⟩

/-- C8 counterexample: the claim says that after a successful run, a second
run with no new scripts has an empty pending set and returns before any side
effect.  With the ledger list query failing (a swallowed read error), the
first run succeeds, yet the second run's pending set is the whole discovered
set again, the second run executes script statements (rolled back at the
duplicate ledger insert) and fails — though the ledger is unchanged. -/
theorem second_run_not_noop_cex :
    (runPendingMigrations envC8 connEmpty).ok = true
    ∧ pendingOf envC8 (runPendingMigrations envC8 connEmpty).conn = ["001_init.sql"]
    ∧ (runPendingMigrations envC8 (runPendingMigrations envC8 connEmpty).conn).ok = false
    ∧ scriptStmts
        (runPendingMigrations envC8 (runPendingMigrations envC8 connEmpty).conn).trace ≠ []
    ∧ (runPendingMigrations envC8
          (runPendingMigrations envC8 connEmpty).conn).conn.committed.ledger
        = (runPendingMigrations envC8 connEmpty).conn.committed.ledger := by
  refine ⟨by decide, by decide, by decide, by decide, by decide⟩

/-- C8 amended: provided the ledger list query does not fail, a second run
from the state of a successful run (with no new scripts added) finds an empty
pending set and returns immediately — its only executor call is the idempotent
ledger-table creation, no script is applied, and the connection state
(including the ledger) is unchanged. -/
theorem second_run_noop (env : Env) (c : Conn)
    (hl : env.ledgerReadFails = false) (ht : c.txn = none)
    (hok : (runPendingMigrations env c).ok = true) :
    runPendingMigrations env (runPendingMigrations env c).conn
      = ⟨true, (runPendingMigrations env c).conn, [Sql.createTable]⟩ := by
  by_cases hct : env.createTableFails = true
  · rw [runPendingMigrations_ctfail env c hct] at hok
    simp at hok
  · have hct' : env.createTableFails = false := by simpa using hct
    rw [runPendingMigrations_eq env c hct'] at hok ⊢
    by_cases hpe : (pendingOf env c).isEmpty = true
    · rw [if_pos hpe] at hok ⊢
      show runPendingMigrations env c = _
      rw [runPendingMigrations_eq env c hct', if_pos hpe]
    · rw [if_neg hpe] at hok ⊢
      have hok' : (runLoop env c (pendingOf env c)).ok = true := hok
      obtain ⟨hled, htxn, hnm⟩ := runLoop_ok env (pendingOf env c) c ht hok'
      show runPendingMigrations env (runLoop env c (pendingOf env c)).conn = _
      rw [runPendingMigrations_eq env _ hct']
      have hpe2 : (pendingOf env (runLoop env c (pendingOf env c)).conn).isEmpty = true := by
        rw [List.isEmpty_iff, pendingOf_eq_of_ok env _ hl htxn, List.filter_eq_nil_iff]
        intro a ha
        have hmem : a ∈ (runLoop env c (pendingOf env c)).conn.committed.ledger := by
          rw [hled]
          by_cases hac : a ∈ c.committed.ledger
          · exact List.mem_append.mpr (Or.inl hac)
          · refine List.mem_append.mpr (Or.inr ?_)
            rw [pendingOf_eq_of_ok env c hl ht, List.mem_filter]
            exact ⟨ha, by simp [hac]⟩
        simp [hmem]
      rw [if_pos hpe2]

/-- C8 amended witness: with healthy reads, running the engine twice in a row
applies the script once; the second run is a pure no-op leaving the connection
unchanged. -/
theorem second_run_noop_witness :
    envC8w.ledgerReadFails = false
    ∧ (runPendingMigrations envC8w connEmpty).ok = true
    ∧ runPendingMigrations envC8w (runPendingMigrations envC8w connEmpty).conn
        = ⟨true, (runPendingMigrations envC8w connEmpty).conn, [Sql.createTable]⟩ :=
  ⟨rfl, by decide, second_run_noop envC8w connEmpty rfl rfl (by decide)⟩

end Migrate
